import Mathlib

/-!
Shallow embedding of the rendezvous core of the zinc identity service,
with theorems checking the natural-language specification against it.

The embedding translates the Go sources:
* Go strings are Lean `String`s; Go `len` on a string is `String.utf8ByteSize`;
  byte slices are `List Nat`.
* Wall-clock instants and durations (`time.Time`, `time.Duration`) are `Int`
  values; `time.Now()` becomes an explicit `now : Int` argument threaded
  through each operation.  `a.After(b)` is `b < a`, `a.Add(d)` is `a + d`.
* Go maps are modelled either as association lists (`List (key × value)`,
  when the map's size is observable, as in the TTL store) or as functions
  `key → Option value` updated with `Function.update`.
* Fallible Go functions returning `error` become `Except`/`Option` results.
* Goroutine-level concurrency is out of the embedding: each operation is a
  pure state transformer, and cross-goroutine orderings are read off the
  sequential data flow of the transformer.
-/

/-! ### Go string helpers (`strings` package calls used by the sources)

`strings.ToLower` / `EqualFold` are modelled with `Char.toLower`, which is
the ASCII restriction of Go's Unicode case mapping; every string the core
compares case-insensitively (domains, local parts, emails) is ASCII.
-/

/-- Go `strings.ToLower`. -/
def goToLower (s : String) : String :=
  String.mk (s.toList.map Char.toLower)

/-- Go `strings.TrimSpace`: strip leading and trailing whitespace. -/
def trimSpace (s : String) : String :=
  String.mk (((s.toList.dropWhile Char.isWhitespace).reverse.dropWhile
    Char.isWhitespace).reverse)

/-- Membership in the cutset of `strings.Trim(s, "<>")`. -/
def isAngle (c : Char) : Bool :=
  c == '<' || c == '>'

/-- Go `strings.Trim(s, "<>")`: strip leading and trailing angle brackets. -/
def trimAngle (s : String) : String :=
  String.mk (((s.toList.dropWhile isAngle).reverse.dropWhile isAngle).reverse)

/-- Split a character list at the LAST occurrence of `c`
(Go `strings.LastIndex` followed by slicing). -/
def lastSplitChar (c : Char) : List Char → Option (List Char × List Char)
  | [] => none
  | x :: xs =>
    match lastSplitChar c xs with
    | some p => some (x :: p.1, p.2)
    | none => if x == c then some ([], xs) else none

/-- Split a character list at the FIRST occurrence of `c`
(the cut made by Go `strings.SplitN(s, sep, 2)`). -/
def firstSplitChar (c : Char) : List Char → Option (List Char × List Char)
  | [] => none
  | x :: xs =>
    if x == c then some ([], xs)
    else
      match firstSplitChar c xs with
      | some p => some (x :: p.1, p.2)
      | none => none

/-- Go `strings.SplitN(s, c, 2)`: a one- or two-element list. -/
def goSplitN2 (s : String) (c : Char) : List String :=
  match firstSplitChar c s.toList with
  | some p => [String.mk p.1, String.mk p.2]
  | none => [s]

/-- Go `strings.Contains`. -/
def goContains (s sub : String) : Bool :=
  decide (sub.toList <:+: s.toList)

/-- `splitAddress` from `internal/smtp` (file `src/unnamed/part_011`):
trim space, strip angle brackets, trim again, then split at the last `@`;
with no `@` the whole address is the local part and the domain is empty. -/
def splitAddress (addr : String) : String × String :=
  let a := trimSpace (trimAngle (trimSpace addr))
  match lastSplitChar '@' a.toList with
  | some p => (String.mk p.1, String.mk p.2)
  | none => (a, "")

/-- `domainEquals` from `internal/smtp`: `strings.EqualFold` of the
space-trimmed operands. -/
def domainEquals (a b : String) : Bool :=
  goToLower (trimSpace a) == goToLower (trimSpace b)

/-! ### TTL store (`store/ephemeral/core.go`, `ttl_store.go`)

`coreStore.data` is a Go map `string → *item`; it is modelled as an
association list so that `len(s.data)` is observable as `List.length`.
Map assignment replaces the entry when the key is present and appends
otherwise, keeping one entry per key.
-/

/-- `item` from `store/ephemeral/core.go`. -/
structure TTLItem where
  value : String
  expiresAt : Int
deriving DecidableEq, Repr

/-- The contents of `coreStore.data`. -/
abbrev TTLData := List (String × TTLItem)

/-- `maxKeyLength` from `store/ephemeral/core.go`. -/
def maxKeyLength : Nat := 255

/-- `maxStoreSize` from `store/ephemeral/core.go`. -/
def maxStoreSize : Nat := 1000

/-- The two error values `ErrTooLong` and `ErrStoreFull`. -/
inductive TTLErr
  | tooLong
  | storeFull
deriving DecidableEq, Repr

/-- Go map assignment `s.data[key] = it`. -/
def dataUpdate (d : TTLData) (key : String) (it : TTLItem) : TTLData :=
  if d.any (fun e => e.1 == key) then
    d.map (fun e => if e.1 == key then (key, it) else e)
  else
    d ++ [(key, it)]

/-- Go map read `s.data[key]`. -/
def dataFind (d : TTLData) (key : String) : Option TTLItem :=
  (d.find? (fun e => e.1 == key)).map Prod.snd

/-- `coreStore.set`: reject keys longer than `maxKeyLength` bytes, reject
when the map already holds `maxStoreSize` entries (expired or not), else
store the value with expiry `now + ttl`.  `TTLStore.Set` calls this with an
empty value and `TTLStore.SetWithValue` with the given value. -/
def coreSet (d : TTLData) (key value : String) (ttl now : Int) :
    Except TTLErr TTLData :=
  if maxKeyLength < key.utf8ByteSize then
    .error .tooLong
  else if maxStoreSize ≤ d.length then
    .error .storeFull
  else
    .ok (dataUpdate d key ⟨value, now + ttl⟩)

/-- `coreStore.get`: `("", false)` when the key is absent or
`time.Now().After(it.expiresAt)`, else the stored value and `true`. -/
def coreGet (d : TTLData) (key : String) (now : Int) : String × Bool :=
  match dataFind d key with
  | none => ("", false)
  | some it => if it.expiresAt < now then ("", false) else (it.value, true)

/-- `TTLStore.Exists`: discard the value of `coreStore.get`. -/
def ttlExists (d : TTLData) (key : String) (now : Int) : Bool :=
  (coreGet d key now).2

/-- `coreStore.delete`: Go `delete(s.data, key)` removes the (unique) entry. -/
def coreDelete (d : TTLData) (key : String) : TTLData :=
  d.eraseP (fun e => e.1 == key)

/-- One cycle of the `coreStore.cleanup` sweep: drop every entry with
`now.After(v.expiresAt)`. -/
def coreCleanup (d : TTLData) (now : Int) : TTLData :=
  d.filter (fun e => !(decide (e.2.expiresAt < now)))

/-! ### Claims C3 and C4: TTL store capacity and expiry visibility -/

/-- The concrete store used to refute the capacity part of claim C3:
`maxStoreSize` entries, all of which expired at instant `0`. -/
def ttlFullExpired : TTLData :=
  (List.range maxStoreSize).map (fun i => (toString i, ⟨"", 0⟩))

theorem ttlFullExpired_length : ttlFullExpired.length = maxStoreSize := by
  simp [ttlFullExpired]

/-- Counterexample to claim C3: at instant `5` every entry of
`ttlFullExpired` is already expired, yet `set` of a fresh short key still
fails with the store-full error — expiry alone does not free capacity. -/
theorem ttl_expired_entries_still_block_set :
    (∀ e ∈ ttlFullExpired, e.2.expiresAt < 5) ∧
    coreSet ttlFullExpired "fresh" "v" 180 5 = .error .storeFull := by
  constructor
  · intro e he
    simp only [ttlFullExpired, List.mem_map] at he
    rcases he with ⟨i, _, rfl⟩
    show (0 : Int) < 5
    decide
  · have hk : ¬ (maxKeyLength < String.utf8ByteSize "fresh") := by decide
    simp [coreSet, hk, ttlFullExpired_length]

/-- Claim C3 (amended): when the map holds `maxStoreSize` entries, every
`set` of a valid-length key fails with the store-full error, and admission
resumes once an entry is actually removed — by `delete` or by the cleanup
sweep (which removes an entry only when its expiry is in the past); expiry
alone, before removal, does not restore admission. -/
theorem ttl_storeFull_until_removal :
    (∀ (d : TTLData) (key value : String) (ttl now : Int),
      key.utf8ByteSize ≤ maxKeyLength → maxStoreSize ≤ d.length →
      coreSet d key value ttl now = .error .storeFull) ∧
    (∀ (d : TTLData) (victim : String) (it : TTLItem) (key value : String)
      (ttl now : Int),
      dataFind d victim = some it → d.length = maxStoreSize →
      key.utf8ByteSize ≤ maxKeyLength →
      ∃ d2, coreSet (coreDelete d victim) key value ttl now = .ok d2) ∧
    (∀ (d : TTLData) (e : String × TTLItem) (key value : String)
      (ttl now : Int),
      e ∈ d → e.2.expiresAt < now → d.length = maxStoreSize →
      key.utf8ByteSize ≤ maxKeyLength →
      ∃ d2, coreSet (coreCleanup d now) key value ttl now = .ok d2) := by
  refine ⟨?_, ?_, ?_⟩
  · intro d key value ttl now hkey hfull
    simp [coreSet, Nat.not_lt.2 hkey, hfull]
  · intro d victim it key value ttl now hfind hlen hkey
    rcases Option.map_eq_some'.1 hfind with ⟨pr, hpr, _⟩
    have hmem := List.mem_of_find?_eq_some hpr
    have hp := List.find?_some hpr
    have hlen2 := @List.length_eraseP_add_one _ (fun e => e.1 == victim) d pr hmem hp
    have hlt : (coreDelete d victim).length < maxStoreSize := by
      unfold coreDelete
      omega
    simp [coreSet, Nat.not_lt.2 hkey, Nat.not_le.2 hlt]
  · intro d e key value ttl now hmem hexp hlen hkey
    have hlt : (coreCleanup d now).length < d.length := by
      unfold coreCleanup
      refine List.length_filter_lt_length_iff_exists.2 ⟨e, hmem, ?_⟩
      simp [hexp]
    have hlt2 : (coreCleanup d now).length < maxStoreSize := by omega
    simp [coreSet, Nat.not_lt.2 hkey, Nat.not_le.2 hlt2]

set_option maxRecDepth 10000 in
/-- Witness for `ttl_storeFull_until_removal` on the concrete full store. -/
theorem ttl_storeFull_until_removal_witness :
    coreSet ttlFullExpired "k" "v" 180 5 = .error .storeFull ∧
    (coreSet (coreDelete ttlFullExpired "0") "k" "v" 180 5).isOk = true ∧
    (coreSet (coreCleanup ttlFullExpired 5) "k" "v" 180 5).isOk = true := by
  have hfind0 : dataFind ttlFullExpired "0" = some ⟨"", 0⟩ := by decide
  have hmem0 : ("0", (⟨"", 0⟩ : TTLItem)) ∈ ttlFullExpired := by
    simp only [ttlFullExpired, List.mem_map]
    exact ⟨0, by simp [maxStoreSize], rfl⟩
  refine ⟨ttl_storeFull_until_removal.1 ttlFullExpired "k" "v" 180 5 (by decide)
      (by rw [ttlFullExpired_length]), ?_, ?_⟩
  · obtain ⟨d2, h⟩ := ttl_storeFull_until_removal.2.1 ttlFullExpired "0"
      ⟨"", 0⟩ "k" "v" 180 5 hfind0 ttlFullExpired_length (by decide)
    rw [h]
    rfl
  · obtain ⟨d2, h⟩ := ttl_storeFull_until_removal.2.2 ttlFullExpired
      ("0", ⟨"", 0⟩) "k" "v" 180 5 hmem0 (by decide) ttlFullExpired_length
      (by decide)
    rw [h]
    rfl

/-- Counterexample to claim C4: an entry whose expiry equals the current
instant is still visible to `get` and `Exists` (the source uses the strict
`time.Now().After(expiresAt)`), while the claim demands invisibility at
`expiry ≤ now`. -/
theorem ttl_entry_at_exact_expiry_visible :
    coreGet [("k", ⟨"v", 5⟩)] "k" 5 = ("v", true) ∧
    ttlExists [("k", ⟨"v", 5⟩)] "k" 5 = true := by
  constructor <;> decide

/-- Claim C4 (amended): a stored entry is invisible to `get` and `Exists`
exactly when its expiry is strictly in the past, even before any sweep: for
`expiresAt < now` the reader sees `("", false)`, while at `expiresAt = now`
the entry is still returned. -/
theorem ttl_get_expiry_visibility (d : TTLData) (key : String) (now : Int)
    (it : TTLItem) (hfind : dataFind d key = some it) :
    (it.expiresAt < now →
      coreGet d key now = ("", false) ∧ ttlExists d key now = false) ∧
    (it.expiresAt = now → coreGet d key now = (it.value, true)) := by
  constructor
  · intro h
    constructor
    · simp [coreGet, hfind, h]
    · simp [ttlExists, coreGet, hfind, h]
  · intro h
    simp [coreGet, hfind, h]

/-- Witness for `ttl_get_expiry_visibility` on one-entry stores: a
strictly expired entry is invisible, an exactly-at-expiry entry visible. -/
theorem ttl_get_expiry_visibility_witness :
    coreGet [("k", ⟨"v", 3⟩)] "k" 7 = ("", false) ∧
    ttlExists [("k", ⟨"v", 3⟩)] "k" 7 = false ∧
    coreGet [("k2", ⟨"v2", 7⟩)] "k2" 7 = ("v2", true) :=
  ⟨((ttl_get_expiry_visibility [("k", ⟨"v", 3⟩)] "k" 7 ⟨"v", 3⟩
      (by decide)).1 (by decide)).1,
    ((ttl_get_expiry_visibility [("k", ⟨"v", 3⟩)] "k" 7 ⟨"v", 3⟩
      (by decide)).1 (by decide)).2,
    (ttl_get_expiry_visibility [("k2", ⟨"v2", 7⟩)] "k2" 7 ⟨"v2", 7⟩
      (by decide)).2 rfl⟩

/-! ### Signature verifier (`internal/auth/verify.go`)

`base64.StdEncoding.DecodeString` and `ed25519.Verify` are Go standard
library calls; the spec's interface section treats library internals as
oracles, so they enter the embedding as explicit function parameters
(`b64decode` returning `none` exactly on inputs the decoder rejects, and
`edVerify` deciding Ed25519 verification on raw byte lists).
-/

/-- `ed25519.PublicKeySize`. -/
def ed25519PublicKeySize : Nat := 32

/-- `ed25519.SignatureSize`. -/
def ed25519SignatureSize : Nat := 64

/-- The four typed errors of `VerifySignature`. -/
inductive SigErr
  | invalidB64PubKey
  | badPubKeyLen
  | invalidB64Sig
  | badSigLen
deriving DecidableEq, Repr

/-- Go `[]byte(message)`: the UTF-8 bytes of the string. -/
def msgBytes (s : String) : List Nat :=
  s.toUTF8.toList.map (fun b => b.toNat)

/-- `VerifySignature` from `internal/auth/verify.go`: decode the base64
public key, check its length, decode the base64 signature, check its
length, then run Ed25519 verification over the raw message bytes. -/
def VerifySignature (b64decode : String → Option (List Nat))
    (edVerify : List Nat → List Nat → List Nat → Bool)
    (pubKeyB64 message signatureB64 : String) : Bool × Option SigErr :=
  match b64decode pubKeyB64 with
  | none => (false, some .invalidB64PubKey)
  | some pubKey =>
    if pubKey.length ≠ ed25519PublicKeySize then (false, some .badPubKeyLen)
    else
      match b64decode signatureB64 with
      | none => (false, some .invalidB64Sig)
      | some sig =>
        if sig.length ≠ ed25519SignatureSize then (false, some .badSigLen)
        else (edVerify pubKey (msgBytes message) sig, none)

/-- Claim C5: `VerifySignature` returns an error — always together with
`valid = false` — exactly when one of the base64 decodes fails or a decoded
length is wrong; on well-formed inputs it returns the Ed25519 verdict over
the raw message bytes with no error. -/
theorem verifySignature_error_characterization
    (b64decode : String → Option (List Nat))
    (edVerify : List Nat → List Nat → List Nat → Bool)
    (pub msg sig : String) :
    ((VerifySignature b64decode edVerify pub msg sig).2.isSome ↔
      b64decode pub = none ∨
      (∃ pk, b64decode pub = some pk ∧ pk.length ≠ ed25519PublicKeySize) ∨
      b64decode sig = none ∨
      (∃ sg, b64decode sig = some sg ∧ sg.length ≠ ed25519SignatureSize)) ∧
    ((VerifySignature b64decode edVerify pub msg sig).2.isSome →
      (VerifySignature b64decode edVerify pub msg sig).1 = false) ∧
    (∀ pk sg, b64decode pub = some pk → pk.length = ed25519PublicKeySize →
      b64decode sig = some sg → sg.length = ed25519SignatureSize →
      VerifySignature b64decode edVerify pub msg sig =
        (edVerify pk (msgBytes msg) sg, none)) := by
  refine ⟨?_, ?_, ?_⟩
  · unfold VerifySignature
    rcases hp : b64decode pub with _ | pk
    · simp [hp]
    · rcases hkl : decide (pk.length ≠ ed25519PublicKeySize) with _ | _
      · have hkl2 : pk.length = ed25519PublicKeySize := by
          have := of_decide_eq_false hkl
          omega
        rcases hs : b64decode sig with _ | sg
        · simp [hp, hkl2, hs]
        · rcases hsl : decide (sg.length ≠ ed25519SignatureSize) with _ | _
          · have hsl2 : sg.length = ed25519SignatureSize := by
              have := of_decide_eq_false hsl
              omega
            simp [hp, hkl2, hs, hsl2]
          · have hsl2 := of_decide_eq_true hsl
            simp [hp, hkl2, hs, hsl2]
      · have hkl2 := of_decide_eq_true hkl
        simp [hp, hkl2]
  · unfold VerifySignature
    rcases hp : b64decode pub with _ | pk
    · simp
    · by_cases hkl : pk.length = ed25519PublicKeySize
      · rcases hs : b64decode sig with _ | sg
        · simp [hkl]
        · by_cases hsl : sg.length = ed25519SignatureSize
          · simp [hkl, hsl]
          · simp [hkl, hsl]
      · simp [hkl]
  · intro pk sg hp hkl hs hsl
    simp [VerifySignature, hp, hkl, hs, hsl]

/-- Witness for `verifySignature_error_characterization`: with a decoder
accepting exactly `"P"` (32 zero bytes) and `"S"` (64 zero bytes) and an
always-true verifier, the well-formed inputs verify with no error. -/
theorem verifySignature_error_characterization_witness :
    VerifySignature
      (fun s => if s = "P" then some (List.replicate 32 0)
        else if s = "S" then some (List.replicate 64 0) else none)
      (fun _ _ _ => true) "P" "m" "S" = (true, none) :=
  (verifySignature_error_characterization
    (fun s => if s = "P" then some (List.replicate 32 0)
      else if s = "S" then some (List.replicate 64 0) else none)
    (fun _ _ _ => true) "P" "m" "S").2.2
    (List.replicate 32 0) (List.replicate 64 0) (by decide) (by decide)
    (by decide) (by decide)

/-! ### Verification registry (`internal/controller`, file `src/unnamed/part_013`)

`VerificationRegistry.channels` maps a nonce to a buffered channel of
capacity one.  A channel still present in the map is either empty
(`pending = false`) or holds the single buffered signal
(`pending = true`); `Delete` closes the channel and removes it from the
map, so a mapped channel is never closed.
-/

/-- The observable state of one capacity-1 signal channel. -/
structure RegChan where
  pending : Bool
deriving DecidableEq, Repr

/-- `VerificationRegistry.channels`. -/
abbrev RegState := String → Option RegChan

/-- `Register`: allocate a fresh empty channel and store it under the
nonce, replacing any previous one. -/
def regRegister (st : RegState) (nonce : String) : RegState :=
  Function.update st nonce (some ⟨false⟩)

/-- `Notify`: look the nonce up; absent means no-op, otherwise perform a
non-blocking send, which buffers a signal only when the slot is empty. -/
def regNotify (st : RegState) (nonce : String) : RegState :=
  match st nonce with
  | none => st
  | some ch => if ch.pending then st else Function.update st nonce (some ⟨true⟩)

/-- `Delete`: close the channel and remove the entry. -/
def regDelete (st : RegState) (nonce : String) : RegState :=
  Function.update st nonce none

/-- Claim C9: a `Notify` on a nonce with no registered handle leaves the
registry untouched, and a subsequent `Register` installs a fresh channel
carrying no pending signal, so the earlier `Notify` can never leak into
the new handle. -/
theorem notify_before_register_no_stale_signal (st : RegState) (nonce : String)
    (h : st nonce = none) :
    regNotify st nonce = st ∧
    regRegister (regNotify st nonce) nonce nonce = some ⟨false⟩ := by
  constructor
  · unfold regNotify
    rw [h]
  · unfold regRegister regNotify
    rw [h]
    exact Function.update_same nonce (some ⟨false⟩) st

/-- Witness for `notify_before_register_no_stale_signal` on the empty
registry. -/
theorem notify_before_register_no_stale_signal_witness :
    regNotify (fun _ => none) "n" = (fun _ => none : RegState) ∧
    regRegister (regNotify (fun _ => none) "n") "n" "n" = some ⟨false⟩ :=
  notify_before_register_no_stale_signal (fun _ => none) "n" rfl

/-! ### SMTP session (`verifyMailboxSession`, file `src/unnamed/part_011`)

Only the state the claims observe is modelled: the accepted recipient
list and counter mutated by `Rcpt`, and the per-recipient nonce selection
performed by the dispatch loop of `Data`.
-/

/-- The session configuration drawn from `config` at `NewSession`. -/
structure SMTPConfig where
  domain : String
  recipientPfx : String
  maxRecipients : Nat
deriving DecidableEq, Repr

/-- The mutable per-session state touched by `Rcpt`. -/
structure SessionState where
  recipients : List String
  acceptedCount : Nat
deriving DecidableEq, Repr

/-- An `smtpcore.SMTPError` reply. -/
structure SMTPErrReply where
  code : Nat
  enhanced : Nat × Nat × Nat
  message : String
deriving DecidableEq, Repr

/-- `verifyMailboxSession.Rcpt`: silently accept (no state change, no
error) when the domain differs or the local part is not
`<recipientPrefix>+<tag>`; reply 452 with enhanced code 4.5.3 when the
session is at `maxRecipients`; otherwise enqueue the raw address and
increment the counter. -/
def rcptCmd (cfg : SMTPConfig) (s : SessionState) (toAddr : String) :
    SessionState × Option SMTPErrReply :=
  let p := splitAddress toAddr
  if !(domainEquals p.2 cfg.domain) then (s, none)
  else
    match goSplitN2 p.1 '+' with
    | [p0, _] =>
      if goToLower p0 ≠ goToLower cfg.recipientPfx then (s, none)
      else if cfg.maxRecipients ≤ s.acceptedCount then
        (s, some ⟨452, (4, 5, 3), "too many recipients"⟩)
      else
        ({ recipients := s.recipients ++ [toAddr],
           acceptedCount := s.acceptedCount + 1 }, none)
    | _ => (s, none)

/-- The per-recipient body of the dispatch loop in
`verifyMailboxSession.Data`: re-split the stored address, skip it on
domain mismatch, on a local part without `+`, or when the trimmed tag is
empty, and otherwise select the trimmed tag as the nonce to dispatch. -/
def dataNonceOf (cfg : SMTPConfig) (rcptAddr : String) : Option String :=
  let p := splitAddress rcptAddr
  if !(domainEquals p.2 cfg.domain) then none
  else
    match goSplitN2 p.1 '+' with
    | [_, tag] =>
      let nonce := trimSpace tag
      if nonce == "" then none else some nonce
    | _ => none

/-- The nonce-selection loop of `verifyMailboxSession.Data` over the
accepted recipients. -/
def dataDispatchNonces (cfg : SMTPConfig) (recipients : List String) :
    List String :=
  recipients.filterMap (dataNonceOf cfg)

/-! ### Claims C6, C7, C10: RCPT and DATA behaviour -/

/-- Counterexample to claim C6: a well-formed verify recipient arriving at
a session already holding `maxRecipients` recipients is rejected with
reply code 452 and enhanced status code 4.5.3 — not 5.3.3 as claimed. -/
theorem rcpt_full_session_enhanced_code_cex :
    rcptCmd ⟨"example.com", "verify", 1⟩
        ⟨["verify+aaa@example.com"], 1⟩ "verify+bbb@example.com" =
      (⟨["verify+aaa@example.com"], 1⟩,
        some ⟨452, (4, 5, 3), "too many recipients"⟩) ∧
    ((4, 5, 3) : Nat × Nat × Nat) ≠ (5, 3, 3) := by
  constructor <;> decide

/-- Claim C6 (amended): a well-formed plus-tagged verify recipient for the
configured domain arriving when the session has already accepted
`maxRecipients` recipients is rejected with reply code 452 and enhanced
status code 4.5.3, and the queued recipients and counter are unchanged. -/
theorem rcpt_too_many_recipients (cfg : SMTPConfig) (s : SessionState)
    (toAddr p0 tag : String)
    (hdom : domainEquals (splitAddress toAddr).2 cfg.domain = true)
    (hsplit : goSplitN2 (splitAddress toAddr).1 '+' = [p0, tag])
    (hpfx : goToLower p0 = goToLower cfg.recipientPfx)
    (hfull : cfg.maxRecipients ≤ s.acceptedCount) :
    rcptCmd cfg s toAddr = (s, some ⟨452, (4, 5, 3), "too many recipients"⟩) := by
  simp [rcptCmd, hdom, hsplit, hpfx, hfull]

/-- Witness for `rcpt_too_many_recipients`. -/
theorem rcpt_too_many_recipients_witness :
    rcptCmd ⟨"example.com", "verify", 2⟩ ⟨["a", "b"], 2⟩
        "verify+n1@example.com" =
      (⟨["a", "b"], 2⟩, some ⟨452, (4, 5, 3), "too many recipients"⟩) :=
  rcpt_too_many_recipients ⟨"example.com", "verify", 2⟩ ⟨["a", "b"], 2⟩
    "verify+n1@example.com" "verify" "n1" (by decide) (by decide) (by decide)
    (by decide)

/-- Claim C7: an RCPT whose domain does not match the configured domain
case-insensitively, or whose local part does not split on the first `+`
into the configured recipient prefix and a tag, succeeds silently and
leaves the recipient list and the accepted counter unchanged. -/
theorem rcpt_nonmatching_silently_ignored (cfg : SMTPConfig)
    (s : SessionState) (toAddr : String)
    (h : domainEquals (splitAddress toAddr).2 cfg.domain = false ∨
      (∀ p0 tag, goSplitN2 (splitAddress toAddr).1 '+' = [p0, tag] →
        goToLower p0 ≠ goToLower cfg.recipientPfx)) :
    rcptCmd cfg s toAddr = (s, none) := by
  rcases h with h | h
  · simp [rcptCmd, h]
  · by_cases hdom : domainEquals (splitAddress toAddr).2 cfg.domain
    · rcases hsplit : goSplitN2 (splitAddress toAddr).1 '+' with _ | ⟨p0, rest⟩
      · simp [rcptCmd, hdom, hsplit]
      · rcases rest with _ | ⟨tag, rest2⟩
        · simp [rcptCmd, hdom, hsplit]
        · rcases rest2 with _ | _
          · simp [rcptCmd, hdom, hsplit, h p0 tag hsplit]
          · simp [rcptCmd, hdom, hsplit]
    · simp [rcptCmd, hdom]

/-- Witness for `rcpt_nonmatching_silently_ignored`: a recipient at a
foreign domain. -/
theorem rcpt_nonmatching_silently_ignored_witness :
    rcptCmd ⟨"example.com", "verify", 5⟩ ⟨[], 0⟩ "verify+n@other.org" =
      (⟨[], 0⟩, none) :=
  rcpt_nonmatching_silently_ignored ⟨"example.com", "verify", 5⟩ ⟨[], 0⟩
    "verify+n@other.org" (Or.inl (by decide))

/-- Claim C10: an RCPT of the form `<recipientPrefix>+@<domain>` (empty
tag) is appended to the recipient list and consumes a slot of the
`maxRecipients` budget, yet the `Data` dispatch loop skips it, so its
empty nonce is never dispatched. -/
theorem rcpt_empty_tag_counted_but_not_dispatched (cfg : SMTPConfig)
    (s : SessionState) (toAddr p0 tag : String)
    (hdom : domainEquals (splitAddress toAddr).2 cfg.domain = true)
    (hsplit : goSplitN2 (splitAddress toAddr).1 '+' = [p0, tag])
    (hpfx : goToLower p0 = goToLower cfg.recipientPfx)
    (hroom : s.acceptedCount < cfg.maxRecipients)
    (htag : trimSpace tag = "") :
    rcptCmd cfg s toAddr =
      (⟨s.recipients ++ [toAddr], s.acceptedCount + 1⟩, none) ∧
    dataDispatchNonces cfg (s.recipients ++ [toAddr]) =
      dataDispatchNonces cfg s.recipients := by
  constructor
  · simp [rcptCmd, hdom, hsplit, hpfx, Nat.not_le.2 hroom]
  · have hto : dataNonceOf cfg toAddr = none := by
      simp [dataNonceOf, hdom, hsplit, htag]
    simp [dataDispatchNonces, List.filterMap_append, List.filterMap_cons, hto]

/-- Witness for `rcpt_empty_tag_counted_but_not_dispatched` on
`verify+@example.com`. -/
theorem rcpt_empty_tag_counted_but_not_dispatched_witness :
    rcptCmd ⟨"example.com", "verify", 5⟩ ⟨["verify+ok@example.com"], 1⟩
        "verify+@example.com" =
      (⟨["verify+ok@example.com", "verify+@example.com"], 2⟩, none) ∧
    dataDispatchNonces ⟨"example.com", "verify", 5⟩
        ["verify+ok@example.com", "verify+@example.com"] =
      dataDispatchNonces ⟨"example.com", "verify", 5⟩
        ["verify+ok@example.com"] :=
  rcpt_empty_tag_counted_but_not_dispatched ⟨"example.com", "verify", 5⟩
    ⟨["verify+ok@example.com"], 1⟩ "verify+@example.com" "verify" ""
    (by decide) (by decide) (by decide) (by decide) (by decide)

/-! ### User store and HTTP completion handler (`store/sqlite.go`,
`api/register.go`)

`SQLiteStore.AddUser` classifies the driver error: a message containing
a constraint-failure marker becomes `ErrUserExists`, anything else is
passed through; the handler additionally turns its own hard-cap timeout
into `context.DeadlineExceeded`.  The portion of `RegisterHandler` after
the rendezvous wake is a pure function of the observations it makes, and
is embedded as `registerCompleteStatus` returning the HTTP status code.
-/

/-- The errors the DB stage of the handler can observe. -/
inductive DBErr
  | userExists
  | deadlineExceeded
  | other (msg : String)
deriving DecidableEq, Repr

/-- `SQLiteStore.AddUser` error classification: `none` on successful
insert; a message containing "UNIQUE constraint failed" or
"constraint failed" becomes the unique-email error `ErrUserExists`;
any other message is returned unchanged. -/
def addUserClassify (execErr : Option String) : Option DBErr :=
  match execErr with
  | none => none
  | some msg =>
    if goContains msg "UNIQUE constraint failed" ||
        goContains msg "constraint failed" then some .userExists
    else some (.other msg)

/-- Outcome of the signature-verification stage of the handler. -/
inductive SigOutcome
  | sigError
  | sigInvalid
  | sigValid
deriving DecidableEq, Repr

/-- The post-wake tail of `RegisterHandler` (`api/register.go:85-195`):
403 when the nonce entry is gone, 403 on verified/claimed email mismatch,
409 when the user already exists (either probe), 403 on signature error or
invalid signature, 500 on ANY error from the AddUser stage (including its
4-second hard-cap timeout), else 200. -/
def registerCompleteStatus (verified : String × Bool) (reqEmail : String)
    (userExistsPre userExistsNow : Bool) (sig : SigOutcome)
    (dbErr : Option DBErr) : Nat :=
  if verified.2 = false then 403
  else if verified.1 ≠ reqEmail then 403
  else if userExistsPre || userExistsNow then 409
  else
    match sig with
    | .sigError => 403
    | .sigInvalid => 403
    | .sigValid =>
      match dbErr with
      | some _ => 500
      | none => 200

/-! ### Claim C1: status code of the AddUser stage -/

/-- Counterexample to claim C1: after successful verification the handler
maps the unique-email conflict from `AddUser` (here produced by the
SQLite duplicate-key message) to 500, not to the claimed 409. -/
theorem addUser_conflict_maps_to_500_cex :
    addUserClassify (some "UNIQUE constraint failed: users.email") =
      some .userExists ∧
    registerCompleteStatus ("a@b.c", true) "a@b.c" false false .sigValid
      (addUserClassify (some "UNIQUE constraint failed: users.email")) = 500 ∧
    (500 : Nat) ≠ 409 := by
  refine ⟨by decide, by decide, by decide⟩

/-- Claim C1 (amended): when the handler reaches the AddUser stage (nonce
entry present and matching, user not seen as existing, signature valid),
EVERY AddUser failure — the unique-email conflict error included — and the
4-second hard-cap timeout are answered with 500, and only a `nil` error
yields 200. -/
theorem register_db_stage_status (reqEmail : String) (e : DBErr) :
    registerCompleteStatus (reqEmail, true) reqEmail false false .sigValid
      (some e) = 500 ∧
    registerCompleteStatus (reqEmail, true) reqEmail false false .sigValid
      none = 200 ∧
    (∀ msg, registerCompleteStatus (reqEmail, true) reqEmail false false
      .sigValid (addUserClassify (some msg)) = 500) := by
  refine ⟨?_, ?_, ?_⟩
  · simp [registerCompleteStatus]
  · simp [registerCompleteStatus]
  · intro msg
    simp only [addUserClassify]
    by_cases hmsg : (goContains msg "UNIQUE constraint failed" ||
        goContains msg "constraint failed") = true
    · simp [registerCompleteStatus, hmsg]
    · simp [registerCompleteStatus, hmsg]

/-- Witness for `register_db_stage_status` at the deadline-exceeded error
and at the SQLite duplicate-key message. -/
theorem register_db_stage_status_witness :
    registerCompleteStatus ("a@b.c", true) "a@b.c" false false .sigValid
      (some .deadlineExceeded) = 500 ∧
    registerCompleteStatus ("a@b.c", true) "a@b.c" false false .sigValid
      none = 200 ∧
    registerCompleteStatus ("a@b.c", true) "a@b.c" false false .sigValid
      (addUserClassify (some "UNIQUE constraint failed: users.email")) = 500 :=
  ⟨(register_db_stage_status "a@b.c" .deadlineExceeded).1,
    (register_db_stage_status "a@b.c" .deadlineExceeded).2.1,
    (register_db_stage_status "a@b.c" .deadlineExceeded).2.2
      "UNIQUE constraint failed: users.email"⟩

/-! ### Rate limiter (`rateLimiter`, file `src/unnamed/part_011`)

`rateLimiter.attempts` maps a key to its timestamp slice; `allow` prunes
the slice to the sliding window and admits while the pruned count is
below `maxRate`.  `NewBackend` constructs it as
`newRateLimiter(10, 5*time.Minute)`.  A run of the limiter is a sequence
of `allow` calls at nondecreasing instants, matching Go's monotonic
`time.Now()`.
-/

/-- `rateLimiter.attempts`. -/
abbrev RLState := String → List Int

/-- The `maxRate` and `window` fields of a `rateLimiter`. -/
structure RLConfig where
  maxRate : Nat
  window : Int
deriving DecidableEq, Repr

/-- `rateLimiter.allow`: keep only the timestamps strictly after
`now − window` (Go `t.After(cutoff)`); refuse, writing back the pruned
slice, when at least `maxRate` remain; otherwise append `now`, write back
and admit. -/
def rlAllow (cfg : RLConfig) (att : RLState) (key : String) (now : Int) :
    RLState × Bool :=
  let valid := (att key).filter (fun t => decide (now - cfg.window < t))
  if cfg.maxRate ≤ valid.length then
    (Function.update att key valid, false)
  else
    (Function.update att key (valid ++ [now]), true)

/-- Run a sequence of `allow` calls, pairing each call with its verdict. -/
def rlRun (cfg : RLConfig) (att : RLState) :
    List (String × Int) → List ((String × Int) × Bool)
  | [] => []
  | c :: cs =>
    ((c, (rlAllow cfg att c.1 c.2).2)) ::
      rlRun cfg (rlAllow cfg att c.1 c.2).1 cs

/-- Membership of instant `t` in the half-open window `(a, a + window]`. -/
def rlTimeWin (cfg : RLConfig) (a t : Int) : Bool :=
  decide (a < t) && decide (t ≤ a + cfg.window)

/-- Selector for admitted calls of key `k` inside the window `(a, a + window]`. -/
def rlWinPred (cfg : RLConfig) (k : String) (a : Int)
    (e : (String × Int) × Bool) : Bool :=
  decide (e.1.1 = k) && rlTimeWin cfg a e.1.2 && e.2

/-- Number of admitted calls of key `k` inside the window `(a, a + window]`. -/
def rlTrueCount (cfg : RLConfig) (k : String) (a : Int)
    (l : List ((String × Int) × Bool)) : Nat :=
  (l.filter (rlWinPred cfg k a)).length

theorem rlAllow_apply_ne (cfg : RLConfig) (att : RLState) (pk : String)
    (now : Int) (k : String) (h : k ≠ pk) :
    (rlAllow cfg att pk now).1 k = att k := by
  unfold rlAllow
  dsimp only
  split
  · exact Function.update_noteq h _ _
  · exact Function.update_noteq h _ _

/-- Invariant step for the sliding-window bound: when the stored slice
for `k` is the cutoff-filter of the previously admitted times, with the
cutoff at least one window before every upcoming call instant, running
the remaining calls keeps the admissions inside any fixed window
`(a, a + window]` bounded by `maxRate`. -/
theorem rlRun_window_aux (cfg : RLConfig) (hW : 0 < cfg.window) (k : String)
    (a : Int) (cs : List (String × Int)) :
    ∀ (att : RLState) (past : List Int) (c : Int),
      cs.Pairwise (fun p q => p.2 ≤ q.2) →
      (∀ p ∈ cs, c ≤ p.2 - cfg.window) →
      (∀ t ∈ past, ∀ p ∈ cs, t ≤ p.2) →
      att k = past.filter (fun t => decide (c < t)) →
      (past.filter (rlTimeWin cfg a)).length ≤ cfg.maxRate →
      (past.filter (rlTimeWin cfg a)).length +
        rlTrueCount cfg k a (rlRun cfg att cs) ≤ cfg.maxRate := by
  induction cs with
  | nil =>
    intro att past c _ _ _ _ hn
    simpa [rlRun, rlTrueCount] using hn
  | cons hd cs ih =>
    obtain ⟨pk, now⟩ := hd
    intro att past c hsort hc hpast hatt hn
    rw [List.pairwise_cons] at hsort
    obtain ⟨hhead, htail⟩ := hsort
    by_cases hk : pk = k
    · subst hk
      have hcle : c ≤ now - cfg.window := hc (pk, now) (List.mem_cons_self _ _)
      have hvalid : (att pk).filter (fun t => decide (now - cfg.window < t)) =
          past.filter (fun t => decide (now - cfg.window < t)) := by
        rw [hatt, List.filter_filter]
        refine List.filter_congr ?_
        intro t _
        by_cases ht : now - cfg.window < t
        · have hct : c < t := lt_of_le_of_lt hcle ht
          simp [ht, hct]
        · simp [ht]
      have hc2 : ∀ p ∈ cs, now - cfg.window ≤ p.2 - cfg.window :=
        fun p hp => sub_le_sub_right (hhead p hp) _
      have hpast2 : ∀ t ∈ past, ∀ p ∈ cs, t ≤ p.2 :=
        fun t ht p hp => hpast t ht p (List.mem_cons_of_mem _ hp)
      by_cases hfull : cfg.maxRate ≤
          ((att pk).filter (fun t => decide (now - cfg.window < t))).length
      · have hallow : rlAllow cfg att pk now =
            (Function.update att pk
              ((att pk).filter (fun t => decide (now - cfg.window < t))),
              false) := by
          unfold rlAllow
          dsimp only
          rw [if_pos hfull]
        have hatt2 : (rlAllow cfg att pk now).1 pk =
            past.filter (fun t => decide (now - cfg.window < t)) := by
          rw [hallow]
          exact (Function.update_same pk _ att).trans hvalid
        have hrec := ih (rlAllow cfg att pk now).1 past (now - cfg.window)
          htail hc2 hpast2 hatt2 hn
        have hpred : rlWinPred cfg pk a ((pk, now), false) = false := by
          simp [rlWinPred]
        simpa [rlRun, rlTrueCount, List.filter_cons, hallow, hpred] using hrec
      · have hadmit :
            ((att pk).filter (fun t =>
              decide (now - cfg.window < t))).length < cfg.maxRate :=
          Nat.lt_of_not_le hfull
        have hallow : rlAllow cfg att pk now =
            (Function.update att pk
              ((att pk).filter (fun t => decide (now - cfg.window < t)) ++
                [now]), true) := by
          unfold rlAllow
          dsimp only
          rw [if_neg hfull]
        have hnoww : decide (now - cfg.window < now) = true := by
          simp
          omega
        have hatt2 : (rlAllow cfg att pk now).1 pk =
            (past ++ [now]).filter (fun t => decide (now - cfg.window < t)) := by
          rw [hallow, List.filter_append]
          refine (Function.update_same pk _ att).trans ?_
          simp [hvalid, List.filter_cons, hnoww, hW]
        have hpast3 : ∀ t ∈ past ++ [now], ∀ p ∈ cs, t ≤ p.2 := by
          intro t ht p hp
          rcases List.mem_append.1 ht with ht | ht
          · exact hpast t ht p (List.mem_cons_of_mem _ hp)
          · rw [List.mem_singleton.1 ht]
            exact hhead p hp
        cases hwin : rlTimeWin cfg a now with
        | true =>
          have hwin2 : a < now ∧ now ≤ a + cfg.window := by
            have := hwin
            unfold rlTimeWin at this
            constructor
            · exact of_decide_eq_true (Bool.and_elim_left this)
            · exact of_decide_eq_true (Bool.and_elim_right this)
          have hsubl : (past.filter (rlTimeWin cfg a)).length ≤
              ((att pk).filter (fun t =>
                decide (now - cfg.window < t))).length := by
            rw [hvalid]
            refine List.Sublist.length_le (List.monotone_filter_right past ?_)
            intro t htw
            unfold rlTimeWin at htw
            have h1 : a < t := of_decide_eq_true (Bool.and_elim_left htw)
            have h2 : t ≤ a + cfg.window :=
              of_decide_eq_true (Bool.and_elim_right htw)
            have h3 : now - cfg.window < t := by omega
            simpa using h3
          have hn2 : ((past ++ [now]).filter (rlTimeWin cfg a)).length ≤
              cfg.maxRate := by
            rw [List.filter_append, List.length_append]
            have hone : (List.filter (rlTimeWin cfg a) [now]).length = 1 := by
              simp [List.filter_cons, hwin]
            omega
          have hrec := ih (rlAllow cfg att pk now).1 (past ++ [now])
            (now - cfg.window) htail hc2 hpast3 hatt2 hn2
          have hpred : rlWinPred cfg pk a ((pk, now), true) = true := by
            simp [rlWinPred, hwin]
          rw [List.filter_append, List.length_append] at hrec
          have hone : (List.filter (rlTimeWin cfg a) [now]).length = 1 := by
            simp [List.filter_cons, hwin]
          rw [hone] at hrec
          simp [rlRun, rlTrueCount, List.filter_cons, hallow, hpred] at hrec ⊢
          omega
        | false =>
          have hn2 : ((past ++ [now]).filter (rlTimeWin cfg a)).length ≤
              cfg.maxRate := by
            rw [List.filter_append, List.length_append]
            have hzero : (List.filter (rlTimeWin cfg a) [now]).length = 0 := by
              simp [List.filter_cons, hwin]
            omega
          have hrec := ih (rlAllow cfg att pk now).1 (past ++ [now])
            (now - cfg.window) htail hc2 hpast3 hatt2 hn2
          have hpred : rlWinPred cfg pk a ((pk, now), true) = false := by
            simp [rlWinPred, hwin]
          rw [List.filter_append, List.length_append] at hrec
          have hzero : (List.filter (rlTimeWin cfg a) [now]).length = 0 := by
            simp [List.filter_cons, hwin]
          rw [hzero] at hrec
          simp [rlRun, rlTrueCount, List.filter_cons, hallow, hpred] at hrec ⊢
          omega
    · have hne : k ≠ pk := fun h => hk h.symm
      have hattn : (rlAllow cfg att pk now).1 k = att k :=
        rlAllow_apply_ne cfg att pk now k hne
      have hpred : rlWinPred cfg k a ((pk, now), (rlAllow cfg att pk now).2) =
          false := by
        simp [rlWinPred, hk]
      have hrec := ih (rlAllow cfg att pk now).1 past c htail
        (fun p hp => hc p (List.mem_cons_of_mem _ hp))
        (fun t ht p hp => hpast t ht p (List.mem_cons_of_mem _ hp))
        (hattn.trans hatt) hn
      simpa [rlRun, rlTrueCount, List.filter_cons, hpred] using hrec

/-! ### Claim C8: the rate limiter's sliding-window bound -/

/-- Claim C8: `allow` prunes the key's timestamps to those strictly newer
than `now − window`, refuses without appending when at least `maxRate`
remain, and otherwise appends `now` and admits; consequently, over any
run at nondecreasing instants, a key collects at most `maxRate`
admissions inside any window `(a, a + window]` of the configured length. -/
theorem rateLimiter_sliding_window_bound (cfg : RLConfig)
    (hW : 0 < cfg.window) (calls : List (String × Int))
    (hsort : calls.Pairwise (fun p q => p.2 ≤ q.2)) (k : String) (a : Int) :
    (∀ (att : RLState) (key : String) (now : Int),
      cfg.maxRate ≤
          ((att key).filter (fun t => decide (now - cfg.window < t))).length →
        rlAllow cfg att key now =
          (Function.update att key
            ((att key).filter (fun t => decide (now - cfg.window < t))),
            false)) ∧
    (∀ (att : RLState) (key : String) (now : Int),
      ((att key).filter (fun t => decide (now - cfg.window < t))).length <
          cfg.maxRate →
        rlAllow cfg att key now =
          (Function.update att key
            ((att key).filter (fun t => decide (now - cfg.window < t)) ++
              [now]), true)) ∧
    rlTrueCount cfg k a (rlRun cfg (fun _ => []) calls) ≤ cfg.maxRate := by
  refine ⟨?_, ?_, ?_⟩
  · intro att key now h
    unfold rlAllow
    dsimp only
    rw [if_pos h]
  · intro att key now h
    unfold rlAllow
    dsimp only
    rw [if_neg (Nat.not_le.2 h)]
  · cases calls with
    | nil => simp [rlRun, rlTrueCount]
    | cons p cs =>
      have hmono : ∀ q ∈ p :: cs, p.2 - cfg.window ≤ q.2 - cfg.window := by
        intro q hq
        rcases List.mem_cons.1 hq with hq | hq
        · rw [hq]
        · rw [List.pairwise_cons] at hsort
          exact sub_le_sub_right (hsort.1 q hq) _
      have h := rlRun_window_aux cfg hW k a (p :: cs) (fun _ => []) []
        (p.2 - cfg.window) hsort hmono (by intro t ht; cases ht) rfl
        (Nat.zero_le _)
      simpa using h

/-- Witness for `rateLimiter_sliding_window_bound` with the production
configuration (max 10 admissions per 300-second window) on a concrete
two-call run. -/
theorem rateLimiter_sliding_window_bound_witness :
    (0 : Int) < (300 : Int) ∧
    List.Pairwise (fun (p q : String × Int) => p.2 ≤ q.2)
      [("alice@example.com", 1), ("alice@example.com", 2)] ∧
    rlTrueCount ⟨10, 300⟩ "alice@example.com" 0
      (rlRun ⟨10, 300⟩ (fun _ => [])
        [("alice@example.com", 1), ("alice@example.com", 2)]) ≤ 10 :=
  ⟨by decide, by decide,
    (rateLimiter_sliding_window_bound ⟨10, 300⟩ (by decide)
      [("alice@example.com", 1), ("alice@example.com", 2)] (by decide)
      "alice@example.com" 0).2.2⟩

/-! ### SMTP nonce processor (`processVerifyNonce`, file `src/unnamed/part_011`)

The processor runs at a single instant `now` against the shared TTL
store, verification registry and rate limiter, and either returns early
at one of its guards or commits the verified email and notifies the
registry — in that data-flow order.
-/

/-- The shared state read and written by `processVerifyNonce`. -/
structure ProcState where
  ttl : TTLData
  registry : RegState
  limiter : RLState

/-- The state left behind by `processVerifyNonce`, plus whether
`Registry.Notify` was invoked. -/
structure ProcResult where
  ttl : TTLData
  registry : RegState
  limiter : RLState
  notified : Bool

/-- The sender normalization at the top of `processVerifyNonce`:
lowercase and trim, strip angle brackets, trim again. -/
def normalizeSender (senderEmail : String) : String :=
  trimSpace (trimAngle (goToLower (trimSpace senderEmail)))

/-- The `3*time.Minute` TTL used for the verified-email entry, in seconds. -/
def registrationTTL : Int := 180

/-- `processVerifyNonce`: return early when the normalized sender is
empty, when the rate limiter refuses it, when no `expected:<nonce>` entry
is readable, when the sender differs from the normalized expected email,
or when storing the verified email fails; only after
`TTL.SetWithValue(nonce, sender, 3m)` has succeeded is
`Registry.Notify(nonce)` invoked. -/
def processVerifyNonce (cfg : RLConfig) (nonceStr senderEmail : String)
    (st : ProcState) (now : Int) : ProcResult :=
  if normalizeSender senderEmail == "" then
    ⟨st.ttl, st.registry, st.limiter, false⟩
  else if (rlAllow cfg st.limiter (normalizeSender senderEmail) now).2 = false then
    ⟨st.ttl, st.registry,
      (rlAllow cfg st.limiter (normalizeSender senderEmail) now).1, false⟩
  else if (coreGet st.ttl ("expected:" ++ nonceStr) now).2 = false then
    ⟨st.ttl, st.registry,
      (rlAllow cfg st.limiter (normalizeSender senderEmail) now).1, false⟩
  else if normalizeSender senderEmail ≠
      goToLower (trimSpace (coreGet st.ttl ("expected:" ++ nonceStr) now).1) then
    ⟨st.ttl, st.registry,
      (rlAllow cfg st.limiter (normalizeSender senderEmail) now).1, false⟩
  else
    match coreSet st.ttl nonceStr (normalizeSender senderEmail)
        registrationTTL now with
    | .error _ =>
      ⟨st.ttl, st.registry,
        (rlAllow cfg st.limiter (normalizeSender senderEmail) now).1, false⟩
    | .ok ttl2 =>
      ⟨ttl2, regNotify st.registry nonceStr,
        (rlAllow cfg st.limiter (normalizeSender senderEmail) now).1, true⟩

theorem find_map_update (d : TTLData) (k : String) (it : TTLItem) :
    (d.map (fun e => if e.1 == k then (k, it) else e)).find?
        (fun e => e.1 == k) =
      if d.any (fun e => e.1 == k) then some (k, it) else none := by
  induction d with
  | nil => rfl
  | cons e d ih =>
    by_cases he : e.1 == k
    · simp [List.find?, he]
    · rw [List.map_cons]
      rw [if_neg he]
      rw [List.find?_cons_of_neg _ (by simpa using he)]
      rw [ih, List.any_cons, Bool.eq_false_iff.2 he, Bool.false_or]

theorem find_append_single (d : TTLData) (k : String) (it : TTLItem)
    (h : d.any (fun e => e.1 == k) = false) :
    (d ++ [(k, it)]).find? (fun e => e.1 == k) = some (k, it) := by
  induction d with
  | nil => simp [List.find?]
  | cons e d ih =>
    rw [List.any_cons, Bool.or_eq_false_iff] at h
    rw [List.cons_append, List.find?_cons_of_neg _ (by simp [h.1])]
    exact ih h.2

theorem dataFind_dataUpdate (d : TTLData) (k : String) (it : TTLItem) :
    dataFind (dataUpdate d k it) k = some it := by
  unfold dataUpdate dataFind
  by_cases hany : d.any (fun e => e.1 == k)
  · rw [if_pos hany, find_map_update, if_pos hany]
    rfl
  · rw [if_neg hany, find_append_single d k it (Bool.eq_false_iff.2 hany)]
    rfl

theorem coreSet_ok_get (d d2 : TTLData) (key value : String) (ttl now : Int)
    (hset : coreSet d key value ttl now = .ok d2) (hpos : 0 < ttl) :
    coreGet d2 key now = (value, true) := by
  unfold coreSet at hset
  by_cases h1 : maxKeyLength < key.utf8ByteSize
  · rw [if_pos h1] at hset
    cases hset
  · rw [if_neg h1] at hset
    by_cases h2 : maxStoreSize ≤ d.length
    · rw [if_pos h2] at hset
      cases hset
    · rw [if_neg h2] at hset
      have hd2 : d2 = dataUpdate d key ⟨value, now + ttl⟩ :=
        (Except.ok.injEq _ _ ▸ hset).symm
      rw [hd2]
      unfold coreGet
      rw [dataFind_dataUpdate]
      have hexp : ¬ ((⟨value, now + ttl⟩ : TTLItem).expiresAt < now) := by
        dsimp only
        omega
      simp [hexp]

/-! ### Claim C2: SetWithValue committed before Notify -/

/-- Claim C2: whenever `processVerifyNonce` invokes `Registry.Notify`,
the `TTL.SetWithValue(nonce, sender, 3m)` preceding it in the data flow
has returned without error and its entry is visible to `TTL.Get(nonce)`
in the state the notified waiter observes; and when `SetWithValue` fails,
`Notify` is not invoked and the registry is untouched. -/
theorem processVerifyNonce_set_precedes_notify (cfg : RLConfig)
    (nonceStr senderEmail : String) (st : ProcState) (now : Int) :
    ((processVerifyNonce cfg nonceStr senderEmail st now).notified = true →
      ∃ ttl2,
        coreSet st.ttl nonceStr (normalizeSender senderEmail)
          registrationTTL now = .ok ttl2 ∧
        (processVerifyNonce cfg nonceStr senderEmail st now).ttl = ttl2 ∧
        (processVerifyNonce cfg nonceStr senderEmail st now).registry =
          regNotify st.registry nonceStr ∧
        coreGet (processVerifyNonce cfg nonceStr senderEmail st now).ttl
          nonceStr now = (normalizeSender senderEmail, true)) ∧
    (∀ e, coreSet st.ttl nonceStr (normalizeSender senderEmail)
        registrationTTL now = .error e →
      (processVerifyNonce cfg nonceStr senderEmail st now).notified = false ∧
      (processVerifyNonce cfg nonceStr senderEmail st now).registry =
        st.registry) := by
  unfold processVerifyNonce
  split
  · exact ⟨fun h => Bool.noConfusion h, fun _ _ => ⟨rfl, rfl⟩⟩
  · split
    · exact ⟨fun h => Bool.noConfusion h, fun _ _ => ⟨rfl, rfl⟩⟩
    · split
      · exact ⟨fun h => Bool.noConfusion h, fun _ _ => ⟨rfl, rfl⟩⟩
      · split
        · exact ⟨fun h => Bool.noConfusion h, fun _ _ => ⟨rfl, rfl⟩⟩
        · cases hset : coreSet st.ttl nonceStr (normalizeSender senderEmail)
              registrationTTL now with
          | error e =>
            exact ⟨fun h => Bool.noConfusion h, fun _ _ => ⟨rfl, rfl⟩⟩
          | ok ttl2 =>
            refine ⟨fun _ => ⟨ttl2, rfl, rfl, rfl, ?_⟩, fun e2 he2 => ?_⟩
            · exact coreSet_ok_get st.ttl ttl2 nonceStr
                (normalizeSender senderEmail) registrationTTL now hset
                (by decide)
            · cases he2

/-- The concrete pre-state for the `processVerifyNonce` witness: a pending
registration for nonce `n1` by `alice@example.com`. -/
def procStateW : ProcState :=
  ⟨[("expected:n1", ⟨"alice@example.com", 100⟩)], fun _ => none, fun _ => []⟩

/-- Witness for `processVerifyNonce_set_precedes_notify`: a full
successful run at instant 10 notifies and leaves the verified email
readable under the nonce. -/
theorem processVerifyNonce_set_precedes_notify_witness :
    (processVerifyNonce ⟨10, 300⟩ "n1" " <Alice@Example.com>" procStateW
      10).notified = true ∧
    coreGet (processVerifyNonce ⟨10, 300⟩ "n1" " <Alice@Example.com>"
      procStateW 10).ttl "n1" 10 = (normalizeSender " <Alice@Example.com>",
      true) := by
  have hnot : (processVerifyNonce ⟨10, 300⟩ "n1" " <Alice@Example.com>"
      procStateW 10).notified = true := by decide
  obtain ⟨ttl2, _, _, _, hget⟩ :=
    (processVerifyNonce_set_precedes_notify ⟨10, 300⟩ "n1"
      " <Alice@Example.com>" procStateW 10).1 hnot
  exact ⟨hnot, hget⟩
